import Mathlib

/-
  Verification of the formtools preview controller (formtools/preview.py).

  The controller wraps a form class and dispatches incoming requests to
  stage handlers (preview_get, preview_post, post_post), guarding the
  confirmation step with a keyed hash over the validated form data.

  Shallow embedding conventions:
  * POST data, FILES and cleaned data are association lists of strings.
  * A form class is its list of declared field names (base_fields) plus a
    validation function `clean` taking the bound data and files and
    returning the cleaned data when the form is valid (Django's
    is_valid / cleaned_data pair).
  * Rendering a template is the `Response.render` constructor; raising
    Http404 is `Response.notFound`; invoking the abstract completion hook
    done(request, cleaned_data) is the `Response.done` constructor (done
    must be supplied by subclasses, so its invocation is kept abstract).
  * The subclass hooks parse_params (which may mutate self.state or raise
    Http404) and process_preview (which may rewrite the context) are
    explicit function parameters; the remaining hooks use the default
    bodies from the source (get_initial -> {}, form_extra_params -> {},
    security_hash -> form_hmac, failed_hash -> preview_post).
-/

namespace Formtools

/-- Association lists of string keys and string values, standing for
QueryDicts, FILES mappings, cleaned data and the controller state. -/
abbrev Params := List (String × String)

/-- A form class: its declared fields (`base_fields`) and its validation
function: `clean data files = some cd` when the bound form is valid with
cleaned data `cd`, `none` when validation fails. -/
structure FormClass where
  base_fields : List String
  clean : Params → Params → Option Params

/-- A form instance: unbound (built on GET with initial data) or bound to
submitted data and files. -/
inductive FormInst where
  | unbound (initial : Params)
  | bound (data : Params) (files : Params)
deriving DecidableEq

/-- An HTTP request: method, POST data and FILES. -/
structure Request where
  method : String
  post : Params
  files : Params
deriving DecidableEq

/-- The template context built by get_context, with the optional
hash_field / hash_value entries added on the preview page. -/
structure Context where
  form : FormInst
  stage_field : String
  state : Params
  hash_field : Option String
  hash_value : Option String
deriving DecidableEq

/-- Observable outcome of handling a request: a rendered template, the
invocation of the abstract completion hook done(request, cleaned_data),
a raised Http404, or a raised TypeError (the dispatcher's getattr can
find the non-callable class attribute preview_template, and calling a
string raises TypeError). -/
inductive Response where
  | render (template : String) (context : Context)
  | done (cleaned : Params)
  | notFound
  | typeError
deriving DecidableEq

/-- The controller: the wrapped form class, the mutable state dictionary
and the process-wide secret key used by the keyed hash. -/
structure FormPreview where
  form : FormClass
  state : Params
  key : Nat

/-- FormPreview.__init__: stores the form class and an empty state dict. -/
def init (form : FormClass) (key : Nat) : FormPreview :=
  FormPreview.mk form [] key

def preview_template : String := "formtools/preview.html"

def form_template : String := "formtools/form.html"

def stage_key : String := "stage"

def hash_key : String := "hash"

/-- request.POST.get(name): first value stored under the key. -/
def getPost (req : Request) (name : String) : Option String :=
  req.post.lookup name

/-- request.POST.get(name, default). -/
def getPostD (req : Request) (name dflt : String) : String :=
  (getPost req name).getD dflt

/-- The loop body of unused_name: append an underscore while the name is
claimed by a form field.  The source's `while 1` loop is translated with
explicit fuel; `unused_name` supplies fuel that provably never runs out. -/
def unusedNameAux (fields : List String) : Nat → String → String
  | 0, name => name
  | fuel + 1, name =>
    if name ∈ fields then unusedNameAux fields fuel (name ++ "_") else name

/-- unused_name: given a first-choice name, adds an underscore to the name
until it reaches a name that isn't claimed by any field in the form. -/
def unused_name (fields : List String) (name : String) : String :=
  unusedNameAux fields (fields.length + 1) name

/-- The string made of `k` underscores. -/
def underscores : Nat → String
  | 0 => ""
  | k + 1 => "_" ++ underscores k

/-- Modelled from the spec: canonical serialization of the cleaned field
values, the input of the keyed digest (`form_hmac` lives in
formtools/utils.py, which is not among the sources). -/
def serializeCleaned (cleaned : Params) : String :=
  String.join (cleaned.map (fun p => p.1 ++ "=" ++ p.2 ++ ";"))

/-- Modelled from the spec: the keyed digest core, a deterministic
function of the secret key and the serialized cleaned data, reduced
modulo 2 ^ 32 (a fixed digest width). -/
def strHash (key : Nat) (s : String) : Nat :=
  s.data.foldl (fun h c => (h * 31 + c.toNat) % (2 ^ 32)) (key % (2 ^ 32) + 1)

/-- Modelled from the spec: form_hmac (formtools/utils.py, not among the
sources) is "an HMAC-style keyed digest over a canonical serialization of
the form's cleaned field values, using a process-wide secret key". -/
def form_hmac (key : Nat) (cleaned : Params) : String :=
  toString (strHash key (serializeCleaned cleaned))

/-- form.is_valid() / form.cleaned_data of a form instance: `some cd`
exactly when the bound form validates with cleaned data `cd`. -/
def cleaned_data (fc : FormClass) : FormInst → Option Params
  | FormInst.unbound _ => none
  | FormInst.bound d fs => fc.clean d fs

/-- security_hash(request, form): the default implementation returns
form_hmac(form) and ignores the request. -/
def security_hash (fp : FormPreview) (req : Request) (f : FormInst) : String :=
  form_hmac fp.key ((cleaned_data fp.form f).getD [])

/-- Model of django.utils.crypto.constant_time_compare's scan: walks both
character lists to the end of the shorter one, accumulating the number of
differing positions (first component) and the number of loop iterations
performed (second component, the cost model).  The scan never exits early
at the first difference. -/
def ctScan : List Char → List Char → Nat × Nat
  | a :: as, b :: bs =>
    let r := ctScan as bs
    Prod.mk (r.1 + (if a = b then 0 else 1)) (r.2 + 1)
  | [], bs => Prod.mk bs.length 0
  | as, [] => Prod.mk as.length 0

/-- Model of django.utils.crypto.constant_time_compare: true exactly when
the scan found equal lengths and no differing position. -/
def constant_time_compare (a b : String) : Bool :=
  (ctScan a.data b.data).1 == 0

/-- get_initial(request): default hook, returns the empty dict. -/
def get_initial (req : Request) : Params :=
  []

/-- get_context(request, form): context for template rendering, holding
the form, the collision-avoided stage field name and the state dict. -/
def get_context (fp : FormPreview) (f : FormInst) : Context :=
  Context.mk f (unused_name fp.form.base_fields stage_key) fp.state none none

/-- The two context assignments of preview_post: store the hash field
name and hash value in the context. -/
def set_hash (c : Context) (hf hv : String) : Context :=
  Context.mk c.form c.stage_field c.state (some hf) (some hv)

/-- The process_preview hook: given the request, the validated form and
the context, returns the (possibly updated) context. -/
abbrev ProcessPreview := Request → FormInst → Context → Context

/-- process_preview's default body: pass. -/
def default_process_preview : ProcessPreview :=
  fun _ _ context => context

/-- The parse_params hook: reads the request and the current state dict
and either returns the updated state or raises Http404 (error). -/
abbrev ParseParams := Request → Params → Except Unit Params

/-- parse_params's default body: pass (state unchanged). -/
def default_parse_params : ParseParams :=
  fun _ state => Except.ok state

/-- preview_get(request): displays the form, instantiated unbound with
the initial data, rendered with the form template. -/
def preview_get (fp : FormPreview) (req : Request) : Response :=
  Response.render form_template
    (get_context fp (FormInst.unbound (get_initial req)))

/-- preview_post(request): validates the POST data (the form is bound to
both request.POST and request.FILES).  If valid, runs process_preview,
stores the hash field name and the security hash in the context and
displays the preview page; else redisplays the form. -/
def preview_post (pp : ProcessPreview) (fp : FormPreview) (req : Request) :
    Response :=
  let f := FormInst.bound req.post req.files
  let context := get_context fp f
  match fp.form.clean req.post req.files with
  | some _ =>
    Response.render preview_template
      (set_hash (pp req f context)
        (unused_name fp.form.base_fields hash_key)
        (security_hash fp req f))
  | none => Response.render form_template context

/-- _check_security_hash(token, request, form): constant-time comparison
of the supplied token against the recomputed expected hash. -/
def _check_security_hash (fp : FormPreview) (token : String) (req : Request)
    (f : FormInst) : Bool :=
  constant_time_compare token (security_hash fp req f)

/-- failed_hash(request): default fallback for an invalid security hash,
re-runs the preview_post path. -/
def failed_hash (pp : ProcessPreview) (fp : FormPreview) (req : Request) :
    Response :=
  preview_post pp fp req

/-- post_post(request): re-binds the form from request.POST only (no
files) and re-validates.  If valid, checks the security hash taken from
the request (defaulting to the empty string) and either falls back to
failed_hash or calls done(request, form.cleaned_data); else redisplays
the form. -/
def post_post (pp : ProcessPreview) (fp : FormPreview) (req : Request) :
    Response :=
  let form := FormInst.bound req.post []
  match fp.form.clean req.post [] with
  | some cd =>
    if _check_security_hash fp
        (getPostD req (unused_name fp.form.base_fields hash_key) "")
        req form then
      Response.done cd
    else
      failed_hash pp fp req
  | none => Response.render form_template (get_context fp form)

/-- The stage lookup of __call__: the dict ("1" -> preview, "2" -> post)
indexed by the hidden stage field's value, defaulting to preview. -/
def stageOf (fp : FormPreview) (req : Request) : String :=
  match getPost req (unused_name fp.form.base_fields stage_key) with
  | some s => if s = "1" then "preview" else if s = "2" then "post" else "preview"
  | none => "preview"

/-- Whether the controller defines a handler method named
stage + "_" + method (preview_get, preview_post and post_post exist). -/
def handler_exists (stage m : String) : Bool :=
  if stage = "preview" then (m = "get" || m = "post")
  else if stage = "post" then m = "post"
  else false

/-- Whether getattr(self, stage + "_" + m) succeeds at all: besides the
three handlers, the class carries the attribute preview_template
(preview_template and form_template are the only non-method attributes,
and only the former is named stage + "_" + m for a stage in
{preview, post}). -/
def attr_exists (stage m : String) : Bool :=
  handler_exists stage m || (stage = "preview" && m = "template")

/-- request.method.lower(): characterwise basic-latin lowercasing. -/
def methodLower (m : String) : String :=
  String.mk (m.data.map Char.toLower)

/-- __call__(request): determines the stage from the hidden stage field,
runs parse_params (which may update the state or raise Http404), then
runs getattr(self, stage + "_" + lower-cased method) and calls the
result, raising Http404 on AttributeError.  For stage preview and
lower-cased method "template", getattr succeeds on the class attribute
preview_template, a string, and calling it raises TypeError (which the
except AttributeError clause does not catch); every other non-handler
name raises AttributeError, hence Http404.  Returns the outcome together
with the controller as left behind for subsequent requests. -/
def call (pp : ProcessPreview) (parse : ParseParams) (fp : FormPreview)
    (req : Request) : Response × FormPreview :=
  let stage := stageOf fp req
  match parse req fp.state with
  | Except.error _ => Prod.mk Response.notFound fp
  | Except.ok st =>
    let fp2 := FormPreview.mk fp.form st fp.key
    let m := methodLower req.method
    if stage = "preview" then
      if m = "get" then Prod.mk (preview_get fp2 req) fp2
      else if m = "post" then Prod.mk (preview_post pp fp2 req) fp2
      else if m = "template" then Prod.mk Response.typeError fp2
      else Prod.mk Response.notFound fp2
    else
      if m = "post" then Prod.mk (post_post pp fp2 req) fp2
      else Prod.mk Response.notFound fp2

/- Concrete fixtures used by the witness theorems. -/

/-- A form class that accepts any submission and returns the POST data
itself as cleaned data. -/
def echoForm : FormClass :=
  FormClass.mk [] (fun d _ => some d)

/-- A form class that accepts any submission with empty cleaned data. -/
def constForm : FormClass :=
  FormClass.mk [] (fun _ _ => some [])

/-- A form class that rejects every submission. -/
def rejectForm : FormClass :=
  FormClass.mk [] (fun _ _ => none)

/-- A plain GET request with no POST data. -/
def reqGet : Request :=
  ⟨"GET", [], []⟩

/-- A confirm-stage POST carrying a correct hash token for constForm's
(empty) cleaned data under secret key 0. -/
def reqGoodHash : Request :=
  ⟨"POST", [(stage_key, "2"), (hash_key, form_hmac 0 [])], []⟩

/-- A confirm-stage POST carrying a field value but no hash token. -/
def reqNoHash : Request :=
  ⟨"POST", [("a", "b")], []⟩

/-- A POST carrying both a field value and an uploaded file. -/
def reqWithFile : Request :=
  ⟨"POST", [("a", "b")], [("f", "x")]⟩

/-- reqGoodHash with an uploaded file added. -/
def reqGoodHashFile : Request :=
  ⟨"POST", [(stage_key, "2"), (hash_key, form_hmac 0 [])], [("f", "x")]⟩

/-- A request with the unusual HTTP method TEMPLATE and no POST data
(stage resolves to preview, and the lower-cased method makes getattr
find the class attribute preview_template). -/
def reqTemplate : Request :=
  ⟨"TEMPLATE", [], []⟩

/-- A parse_params hook that prepends a marker entry to the state. -/
def parseTag : ParseParams :=
  fun _ state => Except.ok (("seen", "1") :: state)

/-- A parse_params hook that raises Http404. -/
def parseReject : ParseParams :=
  fun _ _ => Except.error ()

/-- The controller left behind after one request handled with parseTag,
starting from a freshly initialized controller. -/
def fpAfterTag : FormPreview :=
  (call default_process_preview parseTag (init echoForm 0) reqGet).2

/- Lemmas about underscores and unused_name. -/

theorem append_underscores_zero (name : String) :
    name ++ underscores 0 = name := by
  simp [underscores]

theorem append_underscores_succ (name : String) (k : Nat) :
    name ++ underscores (k + 1) = (name ++ "_") ++ underscores k := by
  rw [underscores, ← String.append_assoc]

theorem underscores_length (k : Nat) : (underscores k).length = k := by
  induction k with
  | zero => rfl
  | succ k ih =>
    rw [underscores, String.length_append, ih]
    have h1 : ("_" : String).length = 1 := rfl
    omega

theorem append_underscores_length (name : String) (j : Nat) :
    (name ++ underscores j).length = name.length + j := by
  rw [String.length_append, underscores_length]

theorem append_underscores_injective (name : String) (i j : Nat)
    (h : name ++ underscores i = name ++ underscores j) : i = j := by
  have hlen := congrArg String.length h
  rw [append_underscores_length, append_underscores_length] at hlen
  omega

theorem unusedNameAux_spec (fields : List String) :
    ∀ (fuel : Nat) (name : String), ∃ k, k ≤ fuel ∧
      unusedNameAux fields fuel name = name ++ underscores k ∧
      (∀ j, j < k → (name ++ underscores j) ∈ fields) ∧
      (k < fuel → (name ++ underscores k) ∉ fields) := by
  intro fuel
  induction fuel with
  | zero =>
    intro name
    refine ⟨0, Nat.le_refl 0, ?_, ?_, ?_⟩
    · rw [unusedNameAux, append_underscores_zero]
    · intro j hj
      exact absurd hj (Nat.not_lt_zero j)
    · intro h
      exact absurd h (Nat.not_lt_zero 0)
  | succ fuel ih =>
    intro name
    by_cases hmem : name ∈ fields
    · obtain ⟨k, hk, heq, hall, hfree⟩ := ih (name ++ "_")
      refine ⟨k + 1, by omega, ?_, ?_, ?_⟩
      · rw [append_underscores_succ, unusedNameAux, if_pos hmem]
        exact heq
      · intro j hj
        cases j with
        | zero => rw [append_underscores_zero]; exact hmem
        | succ i =>
          rw [append_underscores_succ]
          exact hall i (by omega)
      · intro hlt
        rw [append_underscores_succ]
        exact hfree (by omega)
    · refine ⟨0, by omega, ?_, ?_, ?_⟩
      · rw [unusedNameAux, if_neg hmem, append_underscores_zero]
      · intro j hj
        exact absurd hj (Nat.not_lt_zero j)
      · intro _
        rw [append_underscores_zero]
        exact hmem

theorem unused_name_spec (fields : List String) (name : String) :
    ∃ k, unused_name fields name = name ++ underscores k ∧
      (name ++ underscores k) ∉ fields ∧
      (∀ j, j < k → (name ++ underscores j) ∈ fields) := by
  obtain ⟨k, hk, heq, hall, hfree⟩ :=
    unusedNameAux_spec fields (fields.length + 1) name
  refine ⟨k, heq, ?_, hall⟩
  by_cases hlt : k < fields.length + 1
  · exact hfree hlt
  · exfalso
    have hkeq : k = fields.length + 1 := by omega
    have hnodup :
        ((List.range (fields.length + 1)).map
          (fun j => name ++ underscores j)).Nodup := by
      refine List.Nodup.map_on ?_ (List.nodup_range _)
      intro i _ j _ h
      exact append_underscores_injective name i j h
    have hsub :
        ((List.range (fields.length + 1)).map
          (fun j => name ++ underscores j)) ⊆ fields := by
      intro x hx
      obtain ⟨j, hj, rfl⟩ := List.mem_map.mp hx
      exact hall j (by rw [hkeq]; exact List.mem_range.mp hj)
    have hle := (hnodup.subperm hsub).length_le
    rw [List.length_map, List.length_range] at hle
    omega

theorem unused_name_not_mem (fields : List String) (name : String) :
    unused_name fields name ∉ fields := by
  obtain ⟨k, heq, hfree, _⟩ := unused_name_spec fields name
  rw [heq]
  exact hfree

/- Lemmas about the constant-time comparison. -/

theorem ctScan_fst_eq_zero_iff (as : List Char) :
    ∀ bs : List Char, (ctScan as bs).1 = 0 ↔ as = bs := by
  induction as with
  | nil =>
    intro bs
    cases bs with
    | nil => simp [ctScan]
    | cons b bs => simp [ctScan]
  | cons a as ih =>
    intro bs
    cases bs with
    | nil => simp [ctScan]
    | cons b bs =>
      by_cases hab : a = b
      · subst hab
        simp [ctScan, ih bs]
      · simp [ctScan, hab]

theorem ctScan_snd_eq_min (as : List Char) :
    ∀ bs : List Char, (ctScan as bs).2 = min as.length bs.length := by
  induction as with
  | nil =>
    intro bs
    cases bs with
    | nil => simp [ctScan]
    | cons b bs => simp [ctScan]
  | cons a as ih =>
    intro bs
    cases bs with
    | nil => simp [ctScan]
    | cons b bs =>
      have := ih bs
      simp only [ctScan, List.length_cons]
      omega

theorem constant_time_compare_eq_true_iff (a b : String) :
    constant_time_compare a b = true ↔ a = b := by
  rw [constant_time_compare, beq_iff_eq, ctScan_fst_eq_zero_iff]
  exact ⟨fun h => String.ext h, fun h => by rw [h]⟩

theorem constant_time_compare_eq_false_of_ne (a b : String) (h : a ≠ b) :
    constant_time_compare a b = false := by
  cases hc : constant_time_compare a b
  · rfl
  · exact absurd ((constant_time_compare_eq_true_iff a b).mp hc) h

/- Shape lemmas about the handlers. -/

theorem preview_post_shape (pp : ProcessPreview) (fp : FormPreview)
    (req : Request) :
    (∃ cd, fp.form.clean req.post req.files = some cd ∧
      preview_post pp fp req = Response.render preview_template
        (set_hash
          (pp req (FormInst.bound req.post req.files)
            (get_context fp (FormInst.bound req.post req.files)))
          (unused_name fp.form.base_fields hash_key)
          (security_hash fp req (FormInst.bound req.post req.files)))) ∨
    (fp.form.clean req.post req.files = none ∧
      preview_post pp fp req = Response.render form_template
        (get_context fp (FormInst.bound req.post req.files))) := by
  rw [preview_post]
  cases h : fp.form.clean req.post req.files with
  | some cd => exact Or.inl ⟨cd, rfl, rfl⟩
  | none => exact Or.inr ⟨rfl, rfl⟩

theorem preview_post_ne_done (pp : ProcessPreview) (fp : FormPreview)
    (req : Request) (out : Params) :
    preview_post pp fp req ≠ Response.done out := by
  rcases preview_post_shape pp fp req with ⟨cd, _, heq⟩ | ⟨_, heq⟩ <;>
    rw [heq] <;> exact fun h => Response.noConfusion h

theorem preview_post_ne_notFound (pp : ProcessPreview) (fp : FormPreview)
    (req : Request) :
    preview_post pp fp req ≠ Response.notFound := by
  rcases preview_post_shape pp fp req with ⟨cd, _, heq⟩ | ⟨_, heq⟩ <;>
    rw [heq] <;> exact fun h => Response.noConfusion h

theorem post_post_ne_notFound (pp : ProcessPreview) (fp : FormPreview)
    (req : Request) :
    post_post pp fp req ≠ Response.notFound := by
  rw [post_post]
  split
  · split
    · exact fun h => Response.noConfusion h
    · exact preview_post_ne_notFound pp fp req
  · exact fun h => Response.noConfusion h

theorem preview_post_ne_typeError (pp : ProcessPreview) (fp : FormPreview)
    (req : Request) :
    preview_post pp fp req ≠ Response.typeError := by
  rcases preview_post_shape pp fp req with ⟨cd, _, heq⟩ | ⟨_, heq⟩ <;>
    rw [heq] <;> exact fun h => Response.noConfusion h

theorem post_post_ne_typeError (pp : ProcessPreview) (fp : FormPreview)
    (req : Request) :
    post_post pp fp req ≠ Response.typeError := by
  rw [post_post]
  split
  · split
    · exact fun h => Response.noConfusion h
    · exact preview_post_ne_typeError pp fp req
  · exact fun h => Response.noConfusion h

theorem post_post_valid (pp : ProcessPreview) (fp : FormPreview)
    (req : Request) (cd : Params)
    (hvalid : fp.form.clean req.post [] = some cd) :
    post_post pp fp req =
      if _check_security_hash fp
          (getPostD req (unused_name fp.form.base_fields hash_key) "")
          req (FormInst.bound req.post []) then
        Response.done cd
      else failed_hash pp fp req := by
  simp only [post_post]
  rw [hvalid]

/- Claim theorems. -/

/-- C1: for every confirm-stage POST whose form data validates but whose
supplied hash token (the hash field's value, or the empty string when
absent) differs from the hash recomputed by security_hash over the
re-bound form, post_post returns the result of failed_hash(request) and
the completion hook done is never invoked. -/
theorem confirm_bad_hash_routes_to_failed_hash (pp : ProcessPreview)
    (fp : FormPreview) (req : Request) (cd : Params)
    (hvalid : fp.form.clean req.post [] = some cd)
    (hbad : getPostD req (unused_name fp.form.base_fields hash_key) "" ≠
      security_hash fp req (FormInst.bound req.post [])) :
    post_post pp fp req = failed_hash pp fp req ∧
    ∀ out, post_post pp fp req ≠ Response.done out := by
  have hchk : _check_security_hash fp
      (getPostD req (unused_name fp.form.base_fields hash_key) "") req
      (FormInst.bound req.post []) = false := by
    rw [_check_security_hash]
    exact constant_time_compare_eq_false_of_ne _ _ hbad
  have hmain : post_post pp fp req = failed_hash pp fp req := by
    rw [post_post_valid pp fp req cd hvalid, hchk]
    simp
  refine ⟨hmain, fun out => ?_⟩
  rw [hmain, failed_hash]
  exact preview_post_ne_done pp fp req out

/-- C1 witness: a tampered confirm POST (field value present, no hash
token) on a form accepting any data routes to failed_hash. -/
theorem confirm_bad_hash_routes_to_failed_hash_witness :
    post_post default_process_preview (init echoForm 0) reqNoHash =
      failed_hash default_process_preview (init echoForm 0) reqNoHash :=
  (confirm_bad_hash_routes_to_failed_hash default_process_preview
    (init echoForm 0) reqNoHash [("a", "b")] rfl (by decide)).1

/-- C2: for every confirm-stage POST whose form data validates and whose
supplied hash token equals the recomputed security hash, post_post
returns done(request, form.cleaned_data). -/
theorem confirm_good_hash_invokes_done (pp : ProcessPreview)
    (fp : FormPreview) (req : Request) (cd : Params)
    (hvalid : fp.form.clean req.post [] = some cd)
    (hgood : getPostD req (unused_name fp.form.base_fields hash_key) "" =
      security_hash fp req (FormInst.bound req.post [])) :
    post_post pp fp req = Response.done cd := by
  have hchk : _check_security_hash fp
      (getPostD req (unused_name fp.form.base_fields hash_key) "") req
      (FormInst.bound req.post []) = true := by
    rw [_check_security_hash]
    exact (constant_time_compare_eq_true_iff _ _).mpr hgood
  rw [post_post_valid pp fp req cd hvalid, hchk]
  simp

/-- C2 witness: a confirm POST carrying the correct hash token reaches
done with the form's cleaned data. -/
theorem confirm_good_hash_invokes_done_witness :
    post_post default_process_preview (init constForm 0) reqGoodHash =
      Response.done [] :=
  confirm_good_hash_invokes_done default_process_preview
    (init constForm 0) reqGoodHash [] rfl rfl

/-- C5: unused_name returns the requested name with the minimal number of
underscores appended such that the result is not a declared field name of
the form; hence the generated hidden field names never equal any declared
form field name. -/
theorem unused_name_minimal_and_fresh :
    (∀ (fields : List String) (name : String),
      unused_name fields name ∉ fields) ∧
    (∀ (fields : List String) (name : String), ∃ k,
      unused_name fields name = name ++ underscores k ∧
      (name ++ underscores k) ∉ fields ∧
      ∀ j, j < k → (name ++ underscores j) ∈ fields) :=
  ⟨unused_name_not_mem, unused_name_spec⟩

/-- C5 witness: on a form declaring fields named "stage" and "stage_",
the generated stage field name avoids both. -/
theorem unused_name_minimal_and_fresh_witness :
    unused_name [stage_key, "stage_"] stage_key ∉ [stage_key, "stage_"] :=
  unused_name_minimal_and_fresh.1 [stage_key, "stage_"] stage_key

/- Lemmas about the dispatcher. -/

theorem stageOf_eq_post_iff (fp : FormPreview) (req : Request) :
    stageOf fp req = "post" ↔
      getPost req (unused_name fp.form.base_fields stage_key) = some "2" := by
  rw [stageOf]
  cases h : getPost req (unused_name fp.form.base_fields stage_key) with
  | none => simp
  | some s =>
    by_cases h1 : s = "1"
    · subst h1
      simp
    · by_cases h2 : s = "2"
      · subst h2
        simp
      · simp [h1, h2]

theorem stageOf_preview_or_post (fp : FormPreview) (req : Request) :
    stageOf fp req = "preview" ∨ stageOf fp req = "post" := by
  rw [stageOf]
  cases getPost req (unused_name fp.form.base_fields stage_key) with
  | none => exact Or.inl rfl
  | some s =>
    by_cases h1 : s = "1"
    · subst h1
      exact Or.inl (by simp)
    · by_cases h2 : s = "2"
      · subst h2
        exact Or.inr (by simp [h1])
      · exact Or.inl (by simp [h1, h2])

theorem stageOf_eq_preview_of_ne (fp : FormPreview) (req : Request)
    (h : getPost req (unused_name fp.form.base_fields stage_key) ≠ some "2") :
    stageOf fp req = "preview" := by
  rcases stageOf_preview_or_post fp req with hp | hp
  · exact hp
  · exact absurd ((stageOf_eq_post_iff fp req).mp hp) h

theorem call_ok (pp : ProcessPreview) (parse : ParseParams)
    (fp : FormPreview) (req : Request) (st : Params)
    (hparse : parse req fp.state = Except.ok st) :
    call pp parse fp req =
      if stageOf fp req = "preview" then
        if methodLower req.method = "get" then
          Prod.mk (preview_get (FormPreview.mk fp.form st fp.key) req)
            (FormPreview.mk fp.form st fp.key)
        else if methodLower req.method = "post" then
          Prod.mk (preview_post pp (FormPreview.mk fp.form st fp.key) req)
            (FormPreview.mk fp.form st fp.key)
        else if methodLower req.method = "template" then
          Prod.mk Response.typeError (FormPreview.mk fp.form st fp.key)
        else Prod.mk Response.notFound (FormPreview.mk fp.form st fp.key)
      else
        if methodLower req.method = "post" then
          Prod.mk (post_post pp (FormPreview.mk fp.form st fp.key) req)
            (FormPreview.mk fp.form st fp.key)
        else Prod.mk Response.notFound (FormPreview.mk fp.form st fp.key) := by
  simp only [call]
  rw [hparse]

theorem call_error (pp : ProcessPreview) (parse : ParseParams)
    (fp : FormPreview) (req : Request)
    (hparse : parse req fp.state = Except.error ()) :
    call pp parse fp req = Prod.mk Response.notFound fp := by
  simp only [call]
  rw [hparse]

/-- C8: the confirm handler's hash comparison is _check_security_hash,
which delegates to constant_time_compare; under the explicit cost model
the number of scan steps equals the min of the two lengths, independent
of the strings' contents (hence of the position of the first differing
byte), and the comparison decides exactly string equality. -/
theorem check_security_hash_constant_time :
    (∀ (fp : FormPreview) (token : String) (req : Request) (f : FormInst),
      _check_security_hash fp token req f =
        constant_time_compare token (security_hash fp req f)) ∧
    (∀ a b : String,
      (ctScan a.data b.data).2 = min a.data.length b.data.length) ∧
    (∀ a b : String, constant_time_compare a b = true ↔ a = b) :=
  ⟨fun _ _ _ _ => rfl,
   fun a b => ctScan_snd_eq_min a.data b.data,
   constant_time_compare_eq_true_iff⟩

theorem preview_post_invalid (pp : ProcessPreview) (fp : FormPreview)
    (req : Request) (hnone : fp.form.clean req.post req.files = none) :
    preview_post pp fp req = Response.render form_template
      (Context.mk (FormInst.bound req.post req.files)
        (unused_name fp.form.base_fields stage_key) fp.state none none) := by
  simp only [preview_post]
  rw [hnone]
  rfl

theorem post_post_invalid (pp : ProcessPreview) (fp : FormPreview)
    (req : Request) (hnone : fp.form.clean req.post [] = none) :
    post_post pp fp req = Response.render form_template
      (Context.mk (FormInst.bound req.post [])
        (unused_name fp.form.base_fields stage_key) fp.state none none) := by
  simp only [post_post]
  rw [hnone]
  rfl

theorem call_snd_ok (pp : ProcessPreview) (parse : ParseParams)
    (fp : FormPreview) (req : Request) (st : Params)
    (hparse : parse req fp.state = Except.ok st) :
    (call pp parse fp req).2 = FormPreview.mk fp.form st fp.key := by
  rw [call_ok pp parse fp req st hparse]
  split
  · split
    · rfl
    · split
      · rfl
      · split
        · rfl
        · rfl
  · split
    · rfl
    · rfl

/-- C3: for every valid preview-stage POST, the preview context's
hash_value is the security hash of the validated form, which equals
form_hmac of the secret key and the cleaned data; the controller
recomputes the very same value via security_hash over any form instance
(and request) with the same cleaned data, the default security_hash being
the keyed digest form_hmac, deterministic in the cleaned data and key. -/
theorem preview_hash_matches_recomputation (pp : ProcessPreview)
    (fp : FormPreview) (req : Request) (cd : Params)
    (hvalid : fp.form.clean req.post req.files = some cd) :
    (∃ c, preview_post pp fp req = Response.render preview_template c ∧
      c.hash_field = some (unused_name fp.form.base_fields hash_key) ∧
      c.hash_value = some (form_hmac fp.key cd)) ∧
    (∀ (req2 : Request) (d fs : Params), fp.form.clean d fs = some cd →
      security_hash fp req2 (FormInst.bound d fs) = form_hmac fp.key cd) := by
  have hsec : ∀ (req2 : Request) (d fs : Params),
      fp.form.clean d fs = some cd →
      security_hash fp req2 (FormInst.bound d fs) = form_hmac fp.key cd := by
    intro req2 d fs h
    rw [security_hash, cleaned_data, h, Option.getD_some]
  refine ⟨?_, hsec⟩
  rcases preview_post_shape pp fp req with ⟨cd2, _, heq⟩ | ⟨hnone, _⟩
  · refine ⟨_, heq, rfl, ?_⟩
    show some (security_hash fp req (FormInst.bound req.post req.files)) =
      some (form_hmac fp.key cd)
    rw [hsec req req.post req.files hvalid]
  · rw [hvalid] at hnone
    cases hnone

/-- C3 witness: the hash recomputed over a rebound form with the same
cleaned data equals the keyed digest of that cleaned data. -/
theorem preview_hash_matches_recomputation_witness :
    security_hash (init echoForm 0) reqGet (FormInst.bound [("a", "b")] []) =
      form_hmac 0 [("a", "b")] :=
  (preview_hash_matches_recomputation default_process_preview
    (init echoForm 0) reqNoHash [("a", "b")] rfl).2 reqGet [("a", "b")] [] rfl

/-- C4: the dispatcher resolves the stage to "post" exactly when the
hidden stage field (under its collision-avoided name) has value "2" and
to "preview" otherwise, then invokes the handler named
stage + "_" + lower-cased method; in particular a GET with no stage field
is dispatched to preview_get, which renders the form template with an
unbound form. -/
theorem dispatch_selects_stage_handler (pp : ProcessPreview)
    (parse : ParseParams) (fp : FormPreview) (req : Request) (st : Params)
    (hparse : parse req fp.state = Except.ok st) :
    (getPost req (unused_name fp.form.base_fields stage_key) = some "2" →
      methodLower req.method = "post" →
      call pp parse fp req =
        Prod.mk (post_post pp (FormPreview.mk fp.form st fp.key) req)
          (FormPreview.mk fp.form st fp.key)) ∧
    (getPost req (unused_name fp.form.base_fields stage_key) ≠ some "2" →
      methodLower req.method = "post" →
      call pp parse fp req =
        Prod.mk (preview_post pp (FormPreview.mk fp.form st fp.key) req)
          (FormPreview.mk fp.form st fp.key)) ∧
    (getPost req (unused_name fp.form.base_fields stage_key) ≠ some "2" →
      methodLower req.method = "get" →
      call pp parse fp req =
        Prod.mk (preview_get (FormPreview.mk fp.form st fp.key) req)
          (FormPreview.mk fp.form st fp.key)) ∧
    (getPost req (unused_name fp.form.base_fields stage_key) = none →
      methodLower req.method = "get" →
      (call pp parse fp req).1 = Response.render form_template
        (Context.mk (FormInst.unbound [])
          (unused_name fp.form.base_fields stage_key) st none none)) := by
  rw [call_ok pp parse fp req st hparse]
  refine ⟨?_, ?_, ?_, ?_⟩
  · intro h2 hm
    have hs : stageOf fp req = "post" := (stageOf_eq_post_iff fp req).mpr h2
    rw [hs, hm]
    simp
  · intro h2 hm
    have hs := stageOf_eq_preview_of_ne fp req h2
    rw [hs, hm]
    simp
  · intro h2 hm
    have hs := stageOf_eq_preview_of_ne fp req h2
    rw [hs, hm]
    simp
  · intro h2 hm
    have hs := stageOf_eq_preview_of_ne fp req
      (by rw [h2]; exact fun hc => Option.noConfusion hc)
    rw [hs, hm]
    simp only [if_pos rfl]
    rfl

/-- C4 witness: a GET with no stage field renders the form template with
an unbound form. -/
theorem dispatch_selects_stage_handler_witness :
    (call default_process_preview default_parse_params (init echoForm 0)
      reqGet).1 =
      Response.render form_template
        (Context.mk (FormInst.unbound []) stage_key [] none none) :=
  (dispatch_selects_stage_handler default_process_preview
    default_parse_params (init echoForm 0) reqGet [] rfl).2.2.2 rfl rfl

/-- C6: a POST at either stage whose form data fails validation
re-renders the form template with the bound form in the context, with no
hash fields set, with a result independent of the process_preview hook
and the secret key (neither the hash computation nor process_preview runs)
and never reaching done. -/
theorem invalid_post_rerenders (pp pp2 : ProcessPreview) (fp : FormPreview)
    (req : Request) (k2 : Nat) :
    (fp.form.clean req.post req.files = none →
      preview_post pp fp req = Response.render form_template
        (Context.mk (FormInst.bound req.post req.files)
          (unused_name fp.form.base_fields stage_key) fp.state none none) ∧
      preview_post pp fp req =
        preview_post pp2 (FormPreview.mk fp.form fp.state k2) req ∧
      ∀ out, preview_post pp fp req ≠ Response.done out) ∧
    (fp.form.clean req.post [] = none →
      post_post pp fp req = Response.render form_template
        (Context.mk (FormInst.bound req.post [])
          (unused_name fp.form.base_fields stage_key) fp.state none none) ∧
      post_post pp fp req =
        post_post pp2 (FormPreview.mk fp.form fp.state k2) req ∧
      ∀ out, post_post pp fp req ≠ Response.done out) := by
  constructor
  · intro hnone
    have h1 := preview_post_invalid pp fp req hnone
    have h2 := preview_post_invalid pp2 (FormPreview.mk fp.form fp.state k2)
      req hnone
    refine ⟨h1, ?_, ?_⟩
    · rw [h1, h2]
    · intro out
      exact preview_post_ne_done pp fp req out
  · intro hnone
    have h1 := post_post_invalid pp fp req hnone
    have h2 := post_post_invalid pp2 (FormPreview.mk fp.form fp.state k2)
      req hnone
    refine ⟨h1, ?_, ?_⟩
    · rw [h1, h2]
    · intro out
      rw [h1]
      exact fun h => Response.noConfusion h

/-- C6 witness: an invalid preview POST re-renders the form template with
the bound form and empty hash fields. -/
theorem invalid_post_rerenders_witness :
    preview_post default_process_preview (init rejectForm 0) reqWithFile =
      Response.render form_template
        (Context.mk (FormInst.bound [("a", "b")] [("f", "x")]) stage_key []
          none none) :=
  ((invalid_post_rerenders default_process_preview default_process_preview
    (init rejectForm 0) reqWithFile 1).1 rfl).1

/-- C7 counterexample: for the HTTP method TEMPLATE with no stage field
(stage preview), no handler named preview_template exists and
parse_params does not raise, yet __call__ does not raise Http404:
getattr finds the class attribute preview_template (a string) and
calling it raises TypeError, refuting the claimed biconditional. -/
theorem dispatch_not_found_counterexample :
    default_parse_params reqTemplate (init echoForm 0).state =
      Except.ok [] ∧
    handler_exists (stageOf (init echoForm 0) reqTemplate)
      (methodLower reqTemplate.method) = false ∧
    (call default_process_preview default_parse_params (init echoForm 0)
      reqTemplate).1 = Response.typeError ∧
    Response.typeError ≠ Response.notFound := by
  refine ⟨rfl, by decide, by decide, by decide⟩

/-- C7 amended: the dispatcher invokes parse_params before the attribute
lookup (its state update is kept even when the lookup fails), and
Http404 is raised exactly when either parse_params raises it or no class
attribute named stage + "_" + lower-cased method exists; when the lookup
instead finds the non-callable class attribute preview_template (stage
preview, lower-cased method "template"), the call raises TypeError, not
Http404. -/
theorem dispatch_attr_not_found_iff (pp : ProcessPreview)
    (parse : ParseParams) (fp : FormPreview) (req : Request) :
    ((call pp parse fp req).1 = Response.notFound ↔
      parse req fp.state = Except.error () ∨
      attr_exists (stageOf fp req) (methodLower req.method) = false) ∧
    ((call pp parse fp req).1 = Response.typeError ↔
      (∃ st, parse req fp.state = Except.ok st) ∧
      stageOf fp req = "preview" ∧ methodLower req.method = "template") ∧
    (∀ st, parse req fp.state = Except.ok st →
      (call pp parse fp req).2 = FormPreview.mk fp.form st fp.key) := by
  cases hp : parse req fp.state with
  | error e =>
    cases e
    refine ⟨?_, ?_, ?_⟩
    · rw [call_error pp parse fp req hp]
      simp
    · rw [call_error pp parse fp req hp]
      simp
    · intro st hst
      cases hst
  | ok st =>
    have hnoterr : (Except.ok st : Except Unit Params) ≠ Except.error () :=
      fun h => Except.noConfusion h
    refine ⟨?_, ?_, ?_⟩
    · rw [call_ok pp parse fp req st hp]
      rcases stageOf_preview_or_post fp req with hs | hs <;> rw [hs]
      · simp only [attr_exists, handler_exists]
        by_cases hg : methodLower req.method = "get"
        · simp [hg, preview_get, hnoterr]
        · by_cases hq : methodLower req.method = "post"
          · simp [hg, hq, preview_post_ne_notFound, hnoterr]
          · by_cases ht : methodLower req.method = "template"
            · simp [hg, hq, ht, hnoterr]
            · simp [hg, hq, ht, hnoterr]
      · simp only [attr_exists, handler_exists]
        by_cases hq : methodLower req.method = "post"
        · simp [hq, post_post_ne_notFound, hnoterr]
        · simp [hq, hnoterr]
    · rw [call_ok pp parse fp req st hp]
      rcases stageOf_preview_or_post fp req with hs | hs <;> rw [hs]
      · by_cases hg : methodLower req.method = "get"
        · simp [hg, preview_get]
        · by_cases hq : methodLower req.method = "post"
          · simp [hg, hq, preview_post_ne_typeError]
          · by_cases ht : methodLower req.method = "template"
            · simp [hg, hq, ht]
            · simp [hg, hq, ht]
      · by_cases hq : methodLower req.method = "post"
        · simp [hq, post_post_ne_typeError]
        · simp [hq]
    · intro st2 hst2
      injection hst2 with h2
      rw [← h2]
      exact call_snd_ok pp parse fp req st hp

/-- C7 witness: parse_params raising Http404 yields a not-found
response. -/
theorem dispatch_attr_not_found_iff_witness :
    (call default_process_preview parseReject (init echoForm 0) reqGet).1 =
      Response.notFound :=
  (dispatch_attr_not_found_iff default_process_preview parseReject
    (init echoForm 0) reqGet).1.mpr (Or.inl rfl)

/-- C9 counterexample: a controller whose parse_params hook stores a
marker keeps that marker in self.state after the request finishes, so the
next request on the same instance does not start with an empty state; the
entries accumulate across requests. -/
theorem state_not_per_request_counterexample :
    fpAfterTag.state ≠ [] ∧
    (call default_process_preview parseTag fpAfterTag reqGet).2.state =
      [("seen", "1"), ("seen", "1")] := by
  constructor
  · decide
  · decide

/-- C9 amended: the state dictionary starts empty at controller
construction (__init__); on each request parse_params receives the
instance's current state, and the state it leaves behind persists on the
controller across subsequent requests — __call__ never resets it. -/
theorem state_init_empty_and_persists (form : FormClass) (key : Nat)
    (pp : ProcessPreview) (parse : ParseParams) (fp : FormPreview)
    (req : Request) (st : Params)
    (hparse : parse req fp.state = Except.ok st) :
    (init form key).state = [] ∧
    (call pp parse fp req).2 = FormPreview.mk fp.form st fp.key :=
  ⟨rfl, call_snd_ok pp parse fp req st hparse⟩

/-- C9 witness: a fresh controller has empty state, and the state written
by parse_params is what the controller carries after the request. -/
theorem state_init_empty_and_persists_witness :
    (init echoForm 0).state = [] ∧
    (call default_process_preview parseTag (init echoForm 0) reqGet).2 =
      FormPreview.mk echoForm [("seen", "1")] 0 :=
  state_init_empty_and_persists echoForm 0 default_process_preview parseTag
    (init echoForm 0) reqGet [("seen", "1")] rfl

/-- C10: post_post re-binds the form from the POST data only, without the
request's files: whenever it reaches done, the cleaned data comes from
validating the POST data with an empty files mapping and the outcome is
unchanged under replacing the request's files; preview_post instead binds
the form to both the POST data and the files. -/
theorem confirm_rebinding_ignores_files (pp : ProcessPreview)
    (fp : FormPreview) (req : Request) (cd : Params) (fs : Params) :
    (post_post pp fp req = Response.done cd →
      fp.form.clean req.post [] = some cd ∧
      post_post pp fp (Request.mk req.method req.post fs) =
        Response.done cd) ∧
    (fp.form.clean req.post req.files = some cd →
      preview_post default_process_preview fp req =
        Response.render preview_template
          (set_hash (get_context fp (FormInst.bound req.post req.files))
            (unused_name fp.form.base_fields hash_key)
            (security_hash fp req (FormInst.bound req.post req.files)))) := by
  constructor
  · intro hdone
    cases hc : fp.form.clean req.post [] with
    | none =>
      rw [post_post_invalid pp fp req hc] at hdone
      cases hdone
    | some cd0 =>
      rw [post_post_valid pp fp req cd0 hc] at hdone
      cases hcond : _check_security_hash fp
          (getPostD req (unused_name fp.form.base_fields hash_key) "") req
          (FormInst.bound req.post []) with
      | false =>
        rw [hcond] at hdone
        simp only [Bool.false_eq_true, if_false] at hdone
        rw [failed_hash] at hdone
        exact absurd hdone (preview_post_ne_done pp fp req cd)
      | true =>
        rw [hcond] at hdone
        simp only [if_true] at hdone
        injection hdone with hcd
        subst hcd
        refine ⟨rfl, ?_⟩
        have hc2 : fp.form.clean (Request.mk req.method req.post fs).post [] =
            some cd0 := hc
        rw [post_post_valid pp fp (Request.mk req.method req.post fs) cd0 hc2]
        show (if _check_security_hash fp
            (getPostD req (unused_name fp.form.base_fields hash_key) "") req
            (FormInst.bound req.post []) then
          Response.done cd0
        else failed_hash pp fp (Request.mk req.method req.post fs)) =
          Response.done cd0
        rw [hcond]
        simp
  · intro hv
    rcases preview_post_shape default_process_preview fp req with
      ⟨cd2, _, heq⟩ | ⟨hnone, _⟩
    · exact heq
    · rw [hv] at hnone
      cases hnone

/-- C10 witness: adding an uploaded file to a confirm POST does not change
the done outcome or the cleaned data. -/
theorem confirm_rebinding_ignores_files_witness :
    post_post default_process_preview (init constForm 0) reqGoodHashFile =
      Response.done [] :=
  ((confirm_rebinding_ignores_files default_process_preview
    (init constForm 0) reqGoodHash [] [("f", "x")]).1 (by decide)).2

end Formtools
